/-
Verification of the protoc plugin file generator of cl-protobufs
(src/protoc/file.cc).  The development embeds FileGenerator::FileGenerator
and FileGenerator::GenerateSource shallowly: the io::Printer sink is a
state (output characters, current indent, at-start-of-line flag), the
descriptor graph is a record of the attributes file.cc reads, and the
per-entity generators (enum.cc, message.cc, service.cc, field.cc — outside
this unit) are abstracted by the text they emit and the symbol lists they
append, as the specification describes them.
-/

import Mathlib

set_option linter.unusedVariables false

namespace ClProtobufs

/-- Characters treated as separators by the constructor call
schema_name_.find_last_of of the two-character set backslash-slash. -/
def isSlashChar (c : Char) : Bool := c == '\\' || c == '/'

/-- Index of the last character satisfying pred, mirroring
std::string::find_last_of and std::string::rfind on a character class:
none when no character matches. -/
def findLastIdx (pred : Char → Bool) : List Char → Option Nat
  | [] => none
  | c :: rest =>
    match findLastIdx pred rest with
    | some i => some (i + 1)
    | none => if pred c then some 0 else none

/-- Per-character ASCII lowercasing, as protobuf StrToLower performs. -/
def toLowerAscii (c : Char) : Char :=
  if 'A' ≤ c && c ≤ 'Z' then Char.ofNat (c.toNat + 32) else c

/-- Constructor line: if find_last_of of the slash set hits, erase(0,
slash + 1), keeping the characters after the last separator. -/
def eraseThroughLastSlash (s : List Char) : List Char :=
  match findLastIdx isSlashChar s with
  | some slash => s.drop (slash + 1)
  | none => s

/-- Constructor line: if rfind of the period hits, erase(period), keeping
the characters before the last period. -/
def eraseFromLastPeriod (s : List Char) : List Char :=
  match findLastIdx (fun c => c == '.') s with
  | some period => s.take period
  | none => s

/-- Schema-name derivation in the FileGenerator constructor: erase
everything up to and including the last slash or backslash, erase from the
last period on, lowercase the rest. -/
def deriveSchemaName (name : String) : String :=
  String.mk ((eraseFromLastPeriod (eraseThroughLastSlash name.data)).map toLowerAscii)

/-- Modelled from the spec: the base name of a path is the substring after
the last forward slash or backslash, whichever occurs last. -/
def specBaseName (s : List Char) : List Char :=
  (s.reverse.takeWhile (fun c => !(isSlashChar c))).reverse

/-- Modelled from the spec: remove the last period-delimited extension
when a period exists, otherwise keep the name unchanged. -/
def specStripExt (s : List Char) : List Char :=
  if s.any (fun c => c == '.') then
    ((s.reverse.dropWhile (fun c => !(c == '.'))).drop 1).reverse
  else s

/-- Modelled from the spec: normalized schema identifier of a file path:
base name, extension stripped, lowercased. -/
def specSchemaId (name : String) : String :=
  String.mk ((specStripExt (specBaseName name.data)).map toLowerAscii)

/-- The output sink: google::protobuf::io::Printer restricted to the
operations file.cc uses.  Print is modelled with variables already
substituted; the printer inserts the current indent at the start of every
line whose first character is not a newline. -/
structure Printer where
  out : List Char
  indent : List Char
  atStart : Bool
deriving Repr, DecidableEq

/-- One character through the printer: an indent is inserted when the
printer is at the start of a line and the character does not itself end
the (empty) line. -/
def Printer.writeChar (p : Printer) (c : Char) : Printer :=
  { out := p.out ++ (if p.atStart && c != '\n' then p.indent else []) ++ [c],
    indent := p.indent,
    atStart := c == '\n' }

/-- io::Printer::Print with the variable substitution already applied
(every value printed by file.cc is spliced into the template string). -/
def Printer.print (p : Printer) (s : String) : Printer :=
  s.data.foldl Printer.writeChar p

/-- io::Printer::PrintRaw: writes the text verbatim, inserting the indent
only when at the start of a line and the text does not begin with a
newline; does not update the line flag on internal newlines. -/
def Printer.printRaw (p : Printer) (s : String) : Printer :=
  match s.data with
  | [] => p
  | c :: _ =>
    if p.atStart && c != '\n' then
      { out := p.out ++ p.indent ++ s.data, indent := p.indent, atStart := false }
    else
      { out := p.out ++ s.data, indent := p.indent, atStart := p.atStart }

/-- io::Printer::Indent: two more spaces of indent. -/
def Printer.Indent (p : Printer) : Printer :=
  { p with indent := p.indent ++ [' ', ' '] }

/-- io::Printer::Outdent: two fewer characters of indent. -/
def Printer.Outdent (p : Printer) : Printer :=
  { p with indent := p.indent.dropLast.dropLast }

/-- A printer with nothing written yet. -/
def Printer.fresh : Printer := { out := [], indent := [], atStart := true }

/-- A string with no newline characters (all substituted values emitted
inside the indented schema-options block are single-line). -/
def noNL (s : String) : Bool := s.data.all (fun c => c != '\n')

/-- Modelled from the spec: EnumGenerator (enum.cc, outside this unit) is
abstracted by the text its Generate call emits and the symbols its
AddExports call appends in declaration order. -/
structure EnumGen where
  text : String
  exports : List String
deriving Repr, DecidableEq

/-- Modelled from the spec: MessageGenerator (message.cc, outside this
unit) is abstracted by the text its Generate call emits, the symbols its
AddExports call appends, and the namespaces its AddPackages call inserts
(the namespaces touched by message field resolution). -/
structure MessageGen where
  text : String
  exports : List String
  packages : List String
deriving Repr, DecidableEq

/-- Modelled from the spec: ServiceGenerator (service.cc, outside this
unit) is abstracted by the text its Generate call emits and the symbols
its AddExports and AddRpcExports calls append. -/
structure ServiceGen where
  text : String
  exports : List String
  rpcExports : List String
deriving Repr, DecidableEq

/-- Modelled from the spec: GenerateExtension (field.cc, outside this
unit) is abstracted by the text it emits for one top-level extension. -/
structure ExtensionGen where
  text : String
deriving Repr, DecidableEq

/-- The schema-syntax discriminator of FileDescriptor::Syntax. -/
inductive SyntaxVersion where
  | proto2
  | proto3
  | unknown
deriving Repr, DecidableEq

/-- The attributes of a FileDescriptor that file.cc reads.  lispPackage is
FileLispPackage(file) (names.cc, outside this unit), the file target
namespace derived from the declared package. -/
structure FileDescriptor where
  name : String
  package : String
  synVer : SyntaxVersion
  dependencies : List String
  enums : List EnumGen
  messages : List MessageGen
  extensions : List ExtensionGen
  services : List ServiceGen
  lispPackage : String
deriving Repr, DecidableEq

/-- State of a constructed FileGenerator: the descriptor, the lisp package
name, the derived schema name, and the syntax tag chosen by the
constructor switch. -/
structure FileGenerator where
  file : FileDescriptor
  lisp_package_name : String
  schema_name : String
  synTag : String
deriving Repr, DecidableEq

/-- FileGenerator::FileGenerator.  On SYNTAX_UNKNOWN the constructor hits
GOOGLE_LOG(FATAL), so construction (and any later generation) does not
proceed: modelled as none. -/
def FileGenerator.make (file : FileDescriptor) : Option FileGenerator :=
  match file.synVer with
  | SyntaxVersion.proto2 =>
    some { file := file, lisp_package_name := file.lispPackage,
           schema_name := deriveSchemaName file.name, synTag := ":proto2" }
  | SyntaxVersion.proto3 =>
    some { file := file, lisp_package_name := file.lispPackage,
           schema_name := deriveSchemaName file.name, synTag := ":proto3" }
  | SyntaxVersion.unknown => none

/-- Ordered insertion into a duplicate-free ascending list: the effect of
std::set of std::string insert, whose iteration order is ascending
lexicographic byte order. -/
def setInsert (s : List String) (x : String) : List String :=
  match s with
  | [] => [x]
  | y :: ys =>
    if x < y then x :: y :: ys
    else if x = y then y :: ys
    else y :: setInsert ys x

/-- The sequence of insertions GenerateSource performs into the packages
set: the target namespace when non-empty, then the RPC namespace when the
file has services, then every namespace each message contributes. -/
def packageInsertions (fg : FileGenerator) : List String :=
  (if fg.lisp_package_name ≠ "" then
    [fg.lisp_package_name]
      ++ (if fg.file.services.length > 0 then [fg.lisp_package_name ++ "-RPC"] else [])
  else [])
  ++ (fg.file.messages.map MessageGen.packages).flatten

/-- The packages set after all insertions, in its iteration order. -/
def computePackages (fg : FileGenerator) : List String :=
  (packageInsertions fg).foldl setInsert []

/-- GenerateSource lines 75 to 82: the banner comment and the in-package
common-lisp-user line. -/
def emitHeader (fg : FileGenerator) (p : Printer) : Printer :=
  (p.print (";;; " ++ fg.file.name ++ ".lisp\n;;;\n;;; Generated by the protocol buffer compiler. DO NOT EDIT!\n")).print
    "\n(cl:in-package #:common-lisp-user)\n"

/-- The defpackage scaffolding emitted for one package of the set. -/
def declText (pkg : String) : String :=
  "\n(cl:eval-when (:compile-toplevel :load-toplevel :execute)\n  (cl:unless (cl:find-package \""
  ++ pkg ++ "\")\n    (cl:defpackage \"" ++ pkg ++ "\" (:use))))\n"

/-- The sbcl declaim line. -/
def sbclText : String :=
  "\n#+sbcl (cl:declaim (cl:optimize (cl:debug 0) (sb-c:store-coverage-data 0)))\n"

/-- GenerateSource lines 96 to 104: the declaim line and one defpackage
block per element of the packages set, in set iteration order. -/
def emitPackageDecls (fg : FileGenerator) (p : Printer) : Printer :=
  (computePackages fg).foldl (fun pp pkg => pp.print (declText pkg)) (p.print sbclText)

/-- GenerateSource lines 106 to 109: switch into the target package when
the lisp package name is non-empty. -/
def emitInPackage (fg : FileGenerator) (p : Printer) : Printer :=
  if fg.lisp_package_name ≠ "" then
    p.print ("\n(cl:in-package \"" ++ fg.lisp_package_name ++ "\")\n")
  else p

/-- GenerateSource lines 111 to 136: the define-schema block with the
sep-threaded schema options (syntax, package when declared, imports when
present), between an Indent and Outdent pair of depth two. -/
def emitSchemaMeta (fg : FileGenerator) (p0 : Printer) : Printer :=
  let file := fg.file
  let p := p0.print
    ("\n(cl:eval-when (:compile-toplevel :load-toplevel :execute)\n(proto:define-schema \x27"
      ++ fg.schema_name ++ "\n")
  let p := p.Indent.Indent
  let sep : String := ""
  let p := p.print (":syntax " ++ fg.synTag ++ "\n")
  let ps :=
    if file.package ≠ "" then
      ((p.print sep).print (":package \"" ++ file.package ++ "\""), "\n ")
    else (p, sep)
  let p := ps.1
  let sep := ps.2
  let p :=
    if file.dependencies.length > 0 then
      let p := p.print sep
      let p := p.print ":import \x27("
      let ps := file.dependencies.foldl
        (fun (acc : Printer × String) dep =>
          ((acc.1.print acc.2).print ("\"" ++ dep ++ "\""), "\n          "))
        (p, "")
      ps.1.print ")"
    else p
  let p := p.print "))\n"
  p.Outdent.Outdent

/-- One entity group of GenerateSource: when the group is non-empty, its
comment header is printed and each entity in declaration order generates
its text and appends its exports. -/
def genGroup {α : Type} (hdr : String) (f : α → String) (g : α → List String)
    (l : List α) (pe : Printer × List String) : Printer × List String :=
  if l.length > 0 then
    l.foldl (fun acc x => (acc.1.print (f x), acc.2 ++ g x)) (pe.1.print hdr, pe.2)
  else pe

/-- GenerateSource lines 138 to 172: the schema name seeds the export
list; then top-level enums, top-level messages, top-level extensions and
services are generated in that order, each group in declaration order,
each enum, message and service appending its exports, and each service
additionally appending its RPC exports.  Returns the printer, the export
list and the RPC export list. -/
def emitEntities (fg : FileGenerator) (p0 : Printer) :
    Printer × List String × List String :=
  let file := fg.file
  let pe := genGroup "\n;; Top-Level enums." EnumGen.text EnumGen.exports
    file.enums (p0, [fg.schema_name])
  let pe := genGroup "\n;; Top-Level messages." MessageGen.text MessageGen.exports
    file.messages pe
  let p :=
    if file.extensions.length > 0 then
      file.extensions.foldl (fun pp ext => pp.print ext.text)
        (pe.1.print "\n;; Top-Level extensions.")
    else pe.1
  if file.services.length > 0 then
    file.services.foldl
      (fun (acc : Printer × List String × List String) sg =>
        (acc.1.print sg.text, acc.2.1 ++ sg.exports, acc.2.2 ++ sg.rpcExports))
      (p.print "\n;; Services.", pe.2, ([] : List String))
  else (p, pe.2, ([] : List String))

/-- GenerateSource lines 175 to 182: register the schema under its
original path, looked up by derived schema name. -/
def emitEpilogue (fg : FileGenerator) (p : Printer) : Printer :=
  p.print
    ("\n\n(cl:eval-when (:compile-toplevel :load-toplevel :execute)\n(cl:setf (cl:gethash #P\""
      ++ fg.file.name ++ "\" proto-impl::*all-schemas*)\n         (proto:find-schema \x27"
      ++ fg.schema_name ++ ")))\n")

/-- GenerateSource lines 184 to 208: when the lisp package name is
non-empty, export the accumulated symbols when any, then switch into the
RPC package and export the accumulated RPC symbols when any. -/
def emitExports (fg : FileGenerator) (exports rpcExports : List String)
    (p0 : Printer) : Printer :=
  if fg.lisp_package_name ≠ "" then
    let p :=
      if exports ≠ [] then
        let ps := exports.foldl
          (fun (acc : Printer × String) e =>
            ((acc.1.print acc.2).printRaw e, "\n             "))
          (p0.print "\n(cl:export \x27", "(")
        ps.1.print "))\n"
      else p0
    if rpcExports ≠ [] then
      let p := p.print
        ("\n(cl:in-package \"" ++ fg.lisp_package_name ++ "-RPC\")\n")
      let ps := rpcExports.foldl
        (fun (acc : Printer × String) e =>
          ((acc.1.print acc.2).printRaw e, "\n             "))
        (p.print "\n(cl:export \x27", "(")
      ps.1.print "))\n"
    else p
  else p0

/-- FileGenerator::GenerateSource: the phases in source order. -/
def GenerateSource (fg : FileGenerator) (p0 : Printer) : Printer :=
  let p := emitHeader fg p0
  let p := emitPackageDecls fg p
  let p := emitInPackage fg p
  let p := emitSchemaMeta fg p
  let per := emitEntities fg p
  let p := emitEpilogue fg per.1
  emitExports fg per.2.1 per.2.2 p

/-- Construct a generator for the descriptor and run it on a fresh
printer; none when construction aborts on unknown syntax. -/
def generateFile (file : FileDescriptor) : Option String :=
  (FileGenerator.make file).map (fun fg => String.mk (GenerateSource fg Printer.fresh).out)

/-- Concatenation of a list of strings. -/
def strJoin : List String → String
  | [] => ""
  | s :: rest => s ++ strJoin rest

/-- Join with a separator between consecutive elements. -/
def sepJoin (sep : String) : List String → String
  | [] => ""
  | [x] => x
  | x :: rest => x ++ sep ++ sepJoin sep rest

/-- A string in double quotes, as the metadata block renders the package,
the imports and the registration path. -/
def quoted (s : String) : String := "\"" ++ s ++ "\""

/-- Closed form of the banner and in-package common-lisp-user lines. -/
def headerText (fg : FileGenerator) : String :=
  ";;; " ++ fg.file.name
  ++ ".lisp\n;;;\n;;; Generated by the protocol buffer compiler. DO NOT EDIT!\n"
  ++ "\n(cl:in-package #:common-lisp-user)\n"

/-- Closed form of the declaim line plus the defpackage scaffolding, one
block per distinct package in ascending order. -/
def pkgDeclsText (fg : FileGenerator) : String :=
  sbclText ++ strJoin ((computePackages fg).map declText)

/-- Closed form of the in-package switch. -/
def inPackageText (fg : FileGenerator) : String :=
  if fg.lisp_package_name ≠ "" then
    "\n(cl:in-package \"" ++ fg.lisp_package_name ++ "\")\n"
  else ""

/-- The rendered import list: each dependency name quoted, in descriptor
order, subsequent names on continuation lines aligned under the first. -/
def importListText : List String → String
  | [] => ""
  | d :: rest => quoted d ++ strJoin (rest.map (fun x => "\n              " ++ quoted x))

/-- Closed form of the schema options: the syntax tag always, a package
clause exactly when the declared package is non-empty, an import clause
exactly when the file has dependencies, listing them in descriptor order;
the printer indent of four spaces appears at the head of each line. -/
def metaOptionsText (fg : FileGenerator) : String :=
  "    :syntax " ++ fg.synTag ++ "\n"
  ++ (if fg.file.package ≠ "" then "    :package " ++ quoted fg.file.package else "")
  ++ (if fg.file.dependencies ≠ [] then
        (if fg.file.package ≠ "" then "\n     :import \x27(" else "    :import \x27(")
        ++ importListText fg.file.dependencies ++ ")"
      else "")
  ++ (if fg.file.package = "" ∧ fg.file.dependencies = [] then "    ))\n" else "))\n")

/-- Closed form of the whole define-schema block. -/
def metaText (fg : FileGenerator) : String :=
  "\n(cl:eval-when (:compile-toplevel :load-toplevel :execute)\n(proto:define-schema \x27"
  ++ fg.schema_name ++ "\n" ++ metaOptionsText fg

/-- A group header followed by the texts of its entities, omitted when
the group is empty. -/
def sectionText (hdr : String) (texts : List String) : String :=
  if texts.isEmpty then "" else hdr ++ strJoin texts

/-- Closed form of the entity declarations: top-level enums, then
top-level messages, then top-level extensions, then services. -/
def entitiesText (fg : FileGenerator) : String :=
  sectionText "\n;; Top-Level enums." (fg.file.enums.map EnumGen.text)
  ++ sectionText "\n;; Top-Level messages." (fg.file.messages.map MessageGen.text)
  ++ sectionText "\n;; Top-Level extensions." (fg.file.extensions.map ExtensionGen.text)
  ++ sectionText "\n;; Services." (fg.file.services.map ServiceGen.text)

/-- The export list accumulated by GenerateSource: the schema name first,
then every enum export, every message export and every service export in
declaration order. -/
def exportsOf (fg : FileGenerator) : List String :=
  fg.schema_name
    :: ((fg.file.enums.map EnumGen.exports).flatten
      ++ (fg.file.messages.map MessageGen.exports).flatten
      ++ (fg.file.services.map ServiceGen.exports).flatten)

/-- The RPC export list accumulated by GenerateSource: every service RPC
export in declaration order. -/
def rpcExportsOf (fg : FileGenerator) : List String :=
  (fg.file.services.map ServiceGen.rpcExports).flatten

/-- Closed form of the schema registration epilogue. -/
def epilogueText (fg : FileGenerator) : String :=
  "\n\n(cl:eval-when (:compile-toplevel :load-toplevel :execute)\n(cl:setf (cl:gethash #P\""
  ++ fg.file.name ++ "\" proto-impl::*all-schemas*)\n         (proto:find-schema \x27"
  ++ fg.schema_name ++ ")))\n"

/-- Closed form of one export statement over a non-empty symbol list. -/
def exportStmtText (l : List String) : String :=
  "\n(cl:export \x27(" ++ sepJoin "\n             " l ++ "))\n"

/-- Closed form of the export phase: nothing at all when the lisp package
name is empty; otherwise the type export statement when the export list is
non-empty, then the RPC in-package switch and the RPC export statement
when the RPC export list is non-empty. -/
def exportsPhaseText (fg : FileGenerator) (exports rpcExports : List String) : String :=
  if fg.lisp_package_name ≠ "" then
    (if exports ≠ [] then exportStmtText exports else "")
    ++ (if rpcExports ≠ [] then
          "\n(cl:in-package \"" ++ fg.lisp_package_name ++ "-RPC\")\n"
          ++ exportStmtText rpcExports
        else "")
  else ""

/-- Closed form of the whole generated file. -/
def fullText (fg : FileGenerator) : String :=
  headerText fg ++ pkgDeclsText fg ++ inPackageText fg ++ metaText fg
  ++ entitiesText fg ++ epilogueText fg
  ++ exportsPhaseText fg (exportsOf fg) (rpcExportsOf fg)

/-- Whether the last character of the chunk is a newline; the default is
returned for an empty chunk. -/
def lastNL (l : List Char) (dflt : Bool) : Bool :=
  match l.getLast? with
  | some c => c == '\n'
  | none => dflt

theorem lastNL_append (l1 l2 : List Char) (d : Bool) :
    lastNL (l1 ++ l2) d = lastNL l2 (lastNL l1 d) := by
  cases h : l2.getLast? with
  | none =>
    rw [List.getLast?_eq_none_iff] at h
    subst h
    simp [lastNL]
  | some c =>
    have h2 : l2 ≠ [] := by
      intro hn
      subst hn
      simp at h
    simp [lastNL, List.getLast?_append_of_ne_nil _ h2, h]

theorem foldl_writeChar_indent (l : List Char) (p : Printer) :
    (l.foldl Printer.writeChar p).indent = p.indent := by
  induction l generalizing p with
  | nil => rfl
  | cons c rest ih => simpa [Printer.writeChar] using ih (p.writeChar c)

theorem print_indent (p : Printer) (s : String) :
    (p.print s).indent = p.indent :=
  foldl_writeChar_indent s.data p

theorem lastNL_cons (c : Char) (rest : List Char) (d : Bool) :
    lastNL (c :: rest) d = lastNL rest (c == '\n') := by
  cases rest with
  | nil => simp [lastNL]
  | cons e t =>
    cases hgl : (e :: t).getLast? with
    | none => simp [List.getLast?_eq_none_iff] at hgl
    | some x => simp [lastNL, List.getLast?_cons_cons, hgl]

theorem foldl_writeChar_nilIndent (l : List Char) (p : Printer) (h : p.indent = []) :
    l.foldl Printer.writeChar p = ⟨p.out ++ l, [], lastNL l p.atStart⟩ := by
  induction l generalizing p with
  | nil =>
    cases p with
    | mk o i a =>
      simp at h
      subst h
      simp [lastNL]
  | cons c rest ih =>
    have step : p.writeChar c = ⟨p.out ++ [c], [], c == '\n'⟩ := by
      simp [Printer.writeChar, h]
    rw [List.foldl_cons, step, ih _ rfl]
    simp [lastNL_cons]

theorem print_nilIndent (p : Printer) (s : String) (h : p.indent = []) :
    p.print s = ⟨p.out ++ s.data, [], lastNL s.data p.atStart⟩ :=
  foldl_writeChar_nilIndent s.data p h

theorem print_out_nilIndent (p : Printer) (s : String) (h : p.indent = []) :
    (p.print s).out = p.out ++ s.data := by
  rw [print_nilIndent p s h]

theorem print_append (p : Printer) (a b : String) :
    p.print (a ++ b) = (p.print a).print b := by
  simp [Printer.print, String.data_append, List.foldl_append]

theorem print_empty (p : Printer) : p.print "" = p := rfl

theorem print_newline (p : Printer) : p.print "\n" = ⟨p.out ++ ['\n'], p.indent, true⟩ := by
  simp [Printer.print, Printer.writeChar]

theorem foldl_writeChar_noNL_mid (l : List Char) (p : Printer)
    (h : ∀ c ∈ l, (c != '\n') = true) (ha : p.atStart = false) :
    l.foldl Printer.writeChar p = ⟨p.out ++ l, p.indent, false⟩ := by
  induction l generalizing p with
  | nil =>
    cases p with
    | mk o i a =>
      simp at ha
      subst ha
      simp
  | cons c rest ih =>
    have hc : (c == '\n') = false := by
      have := h c (List.mem_cons_self c rest)
      simpa [bne] using this
    have step : p.writeChar c = ⟨p.out ++ [c], p.indent, c == '\n'⟩ := by
      simp [Printer.writeChar, ha]
    rw [List.foldl_cons, step,
      ih ⟨p.out ++ [c], p.indent, c == '\n'⟩ (fun x hx => h x (List.mem_cons_of_mem c hx))
        (by simp [hc])]
    simp

theorem print_noNL_mid (p : Printer) (s : String) (h : noNL s = true)
    (ha : p.atStart = false) :
    p.print s = ⟨p.out ++ s.data, p.indent, false⟩ := by
  rw [noNL, List.all_eq_true] at h
  exact foldl_writeChar_noNL_mid s.data p h ha

theorem print_noNL_start (p : Printer) (s : String) (h : noNL s = true)
    (hne : s.data ≠ []) (ha : p.atStart = true) :
    p.print s = ⟨p.out ++ p.indent ++ s.data, p.indent, false⟩ := by
  rw [noNL, List.all_eq_true] at h
  show s.data.foldl Printer.writeChar p = _
  cases hs : s.data with
  | nil => exact absurd hs hne
  | cons c rest =>
    have hmemc : c ∈ s.data := by rw [hs]; exact List.mem_cons_self c rest
    have hc : (c == '\n') = false := by
      have := h c hmemc
      simpa [bne] using this
    have hcne : (c != '\n') = true := by simp [bne, hc]
    have step : p.writeChar c = ⟨p.out ++ p.indent ++ [c], p.indent, c == '\n'⟩ := by
      simp [Printer.writeChar, ha, hcne]
    rw [List.foldl_cons, step,
      foldl_writeChar_noNL_mid rest ⟨p.out ++ p.indent ++ [c], p.indent, c == '\n'⟩
        (fun x hx => h x (by rw [hs]; exact List.mem_cons_of_mem c hx)) (by simp [hc])]
    simp

theorem printRaw_nilIndent (p : Printer) (s : String) (h : p.indent = []) :
    (p.printRaw s).out = p.out ++ s.data ∧ (p.printRaw s).indent = [] := by
  rw [Printer.printRaw]
  cases hs : s.data with
  | nil => simp [h, hs]
  | cons c rest =>
    by_cases hb : (p.atStart && c != '\n') = true
    · simp [hb, h, hs]
    · simp [hb, h, hs]

theorem strJoin_data (l : List String) :
    (strJoin l).data = (l.map String.data).flatten := by
  induction l with
  | nil => rfl
  | cons s rest ih => simp [strJoin, String.data_append, ih]

theorem printFold_nilIndent {α : Type} (f : α → String) (l : List α) (p : Printer)
    (h : p.indent = []) :
    l.foldl (fun pp x => pp.print (f x)) p
      = ⟨p.out ++ (strJoin (l.map f)).data, [],
          lastNL (strJoin (l.map f)).data p.atStart⟩ := by
  induction l generalizing p with
  | nil =>
    cases p with
    | mk o i a =>
      simp at h
      subst h
      simp [strJoin, lastNL]
  | cons x rest ih =>
    rw [List.foldl_cons, print_nilIndent p (f x) h, ih _ rfl]
    simp [strJoin, String.data_append, lastNL_append]

theorem pairFold_fst {α : Type} (f : α → String) (g : α → List String) (l : List α)
    (p : Printer) (e : List String) (h : p.indent = []) :
    (l.foldl (fun acc x => (acc.1.print (f x), acc.2 ++ g x)) (p, e)).1.out
        = p.out ++ (strJoin (l.map f)).data
      ∧ (l.foldl (fun acc x => (acc.1.print (f x), acc.2 ++ g x)) (p, e)).1.indent = [] := by
  induction l generalizing p e with
  | nil => simp [strJoin, h]
  | cons x rest ih =>
    rw [List.foldl_cons]
    have ⟨ih1, ih2⟩ := ih (p.print (f x)) (e ++ g x) (by rw [print_indent, h])
    refine ⟨?_, ih2⟩
    rw [ih1, print_out_nilIndent p (f x) h]
    simp [strJoin, String.data_append]

theorem pairFold_snd {α : Type} (f : α → String) (g : α → List String) (l : List α)
    (p : Printer) (e : List String) :
    (l.foldl (fun acc x => (acc.1.print (f x), acc.2 ++ g x)) (p, e)).2
      = e ++ (l.map g).flatten := by
  induction l generalizing p e with
  | nil => simp
  | cons x rest ih => simp [ih]

theorem tripleFold_fst {α : Type} (f : α → String) (g g2 : α → List String) (l : List α)
    (p : Printer) (e e2 : List String) (h : p.indent = []) :
    (l.foldl (fun acc x => (acc.1.print (f x), acc.2.1 ++ g x, acc.2.2 ++ g2 x))
        (p, e, e2)).1.out = p.out ++ (strJoin (l.map f)).data
      ∧ (l.foldl (fun acc x => (acc.1.print (f x), acc.2.1 ++ g x, acc.2.2 ++ g2 x))
        (p, e, e2)).1.indent = [] := by
  induction l generalizing p e e2 with
  | nil => simp [strJoin, h]
  | cons x rest ih =>
    rw [List.foldl_cons]
    have ⟨ih1, ih2⟩ := ih (p.print (f x)) (e ++ g x) (e2 ++ g2 x) (by rw [print_indent, h])
    refine ⟨?_, ih2⟩
    rw [ih1, print_out_nilIndent p (f x) h]
    simp [strJoin, String.data_append]

theorem tripleFold_snd {α : Type} (f : α → String) (g g2 : α → List String) (l : List α)
    (p : Printer) (e e2 : List String) :
    (l.foldl (fun acc x => (acc.1.print (f x), acc.2.1 ++ g x, acc.2.2 ++ g2 x))
        (p, e, e2)).2 = (e ++ (l.map g).flatten, e2 ++ (l.map g2).flatten) := by
  induction l generalizing p e e2 with
  | nil => simp
  | cons x rest ih => simp [ih]

theorem emitHeader_eq (fg : FileGenerator) (p : Printer) (h : p.indent = []) :
    emitHeader fg p = ⟨p.out ++ (headerText fg).data, [], true⟩ := by
  rw [emitHeader, print_nilIndent p _ h, print_nilIndent _ _ rfl]
  simp only [headerText, String.data_append, Printer.mk.injEq]
  refine ⟨by simp, trivial, rfl⟩

theorem lastNL_declText (pkg : String) (b : Bool) : lastNL (declText pkg).data b = true := by
  rw [declText]
  simp only [String.data_append, lastNL_append]
  rfl

theorem emitPackageDecls_eq (fg : FileGenerator) (p : Printer) (h : p.indent = []) :
    emitPackageDecls fg p = ⟨p.out ++ (pkgDeclsText fg).data, [], true⟩ := by
  rw [emitPackageDecls, print_nilIndent p _ h,
    printFold_nilIndent declText (computePackages fg) _ rfl]
  simp only [pkgDeclsText, String.data_append, List.append_assoc, Printer.mk.injEq]
  refine ⟨trivial, trivial, ?_⟩
  have hstart : lastNL sbclText.data p.atStart = true := rfl
  rw [hstart]
  induction computePackages fg with
  | nil => rfl
  | cons q rest ih =>
    simp only [List.map_cons, strJoin, String.data_append, lastNL_append,
      lastNL_declText]
    exact ih

theorem emitInPackage_eq (fg : FileGenerator) (p : Printer) (h : p.indent = []) :
    emitInPackage fg p = ⟨p.out ++ (inPackageText fg).data, [],
      if fg.lisp_package_name = "" then p.atStart else true⟩ := by
  rw [emitInPackage, inPackageText]
  by_cases hl : fg.lisp_package_name = ""
  · rw [if_neg (by simp [hl]), if_neg (by simp [hl]), if_pos hl]
    cases p with
    | mk o i a =>
      simp at h
      subst h
      simp
  · rw [if_pos hl, if_pos hl, if_neg hl, print_nilIndent p _ h]
    simp only [String.data_append, Printer.mk.injEq]
    refine ⟨trivial, trivial, ?_⟩
    simp only [lastNL_append]
    rfl

theorem genGroup_eq {α : Type} (hdr : String) (f : α → String) (g : α → List String)
    (l : List α) (pe : Printer × List String) (h : pe.1.indent = []) :
    (genGroup hdr f g l pe).1.out = pe.1.out ++ (sectionText hdr (l.map f)).data
      ∧ (genGroup hdr f g l pe).1.indent = []
      ∧ (genGroup hdr f g l pe).2 = pe.2 ++ (l.map g).flatten := by
  rw [genGroup]
  cases l with
  | nil => simp [sectionText, h]
  | cons x rest =>
    rw [if_pos (by simp)]
    have ⟨h1, h2⟩ := pairFold_fst f g (x :: rest) (pe.1.print hdr) pe.2
      (by rw [print_indent, h])
    refine ⟨?_, h2, pairFold_snd f g (x :: rest) (pe.1.print hdr) pe.2⟩
    rw [h1, print_out_nilIndent pe.1 hdr h]
    simp [sectionText, String.data_append]

theorem emitEntities_eq (fg : FileGenerator) (p : Printer) (h : p.indent = []) :
    (emitEntities fg p).1.out = p.out ++ (entitiesText fg).data
      ∧ (emitEntities fg p).1.indent = []
      ∧ (emitEntities fg p).2.1 = exportsOf fg
      ∧ (emitEntities fg p).2.2 = rpcExportsOf fg := by
  rw [emitEntities]
  obtain ⟨e1, e2, e3⟩ := genGroup_eq "\n;; Top-Level enums." EnumGen.text
    EnumGen.exports fg.file.enums (p, [fg.schema_name]) h
  obtain ⟨m1, m2, m3⟩ := genGroup_eq "\n;; Top-Level messages." MessageGen.text
    MessageGen.exports fg.file.messages
    (genGroup "\n;; Top-Level enums." EnumGen.text EnumGen.exports
      fg.file.enums (p, [fg.schema_name])) e2
  set pem := genGroup "\n;; Top-Level messages." MessageGen.text MessageGen.exports
    fg.file.messages
    (genGroup "\n;; Top-Level enums." EnumGen.text EnumGen.exports
      fg.file.enums (p, [fg.schema_name])) with hpem
  have hx : (if fg.file.extensions.length > 0 then
        fg.file.extensions.foldl (fun pp ext => pp.print ext.text)
          (pem.1.print "\n;; Top-Level extensions.")
      else pem.1).out
        = pem.1.out ++ (sectionText "\n;; Top-Level extensions."
            (fg.file.extensions.map ExtensionGen.text)).data
      ∧ (if fg.file.extensions.length > 0 then
        fg.file.extensions.foldl (fun pp ext => pp.print ext.text)
          (pem.1.print "\n;; Top-Level extensions.")
      else pem.1).indent = [] := by
    cases hext : fg.file.extensions with
    | nil => simp [sectionText, m2]
    | cons x rest =>
      rw [if_pos (by simp)]
      rw [printFold_nilIndent ExtensionGen.text (x :: rest)
        (pem.1.print "\n;; Top-Level extensions.") (by rw [print_indent, m2]),
        print_out_nilIndent pem.1 _ m2]
      constructor
      · simp [sectionText, String.data_append]
      · rfl
  set px := (if fg.file.extensions.length > 0 then
      fg.file.extensions.foldl (fun pp ext => pp.print ext.text)
        (pem.1.print "\n;; Top-Level extensions.")
    else pem.1) with hpx
  cases hsvc : fg.file.services with
  | nil =>
    rw [if_neg (by simp [hsvc])]
    refine ⟨?_, hx.2, ?_, ?_⟩
    · rw [hx.1, m1, e1]
      simp [entitiesText, hsvc, sectionText, String.data_append, List.append_assoc]
    · rw [m3, e3]
      simp [exportsOf, hsvc]
    · simp [rpcExportsOf, hsvc]
  | cons s rest =>
    rw [if_pos (by simp [hsvc])]
    have ⟨s1, s2⟩ := tripleFold_fst ServiceGen.text ServiceGen.exports
      ServiceGen.rpcExports (s :: rest) (px.print "\n;; Services.") pem.2 []
      (by rw [print_indent, hx.2])
    have s3 := tripleFold_snd ServiceGen.text ServiceGen.exports
      ServiceGen.rpcExports (s :: rest) (px.print "\n;; Services.") pem.2 []
    refine ⟨?_, s2, ?_, ?_⟩
    · rw [s1, print_out_nilIndent px _ hx.2, hx.1, m1, e1]
      simp [entitiesText, hsvc, sectionText, String.data_append, List.append_assoc]
    · have : (s :: rest).foldl
          (fun (acc : Printer × List String × List String) sg =>
            (acc.1.print sg.text, acc.2.1 ++ sg.exports, acc.2.2 ++ sg.rpcExports))
          (px.print "\n;; Services.", pem.2, ([] : List String)) |>.2.1
          = pem.2 ++ ((s :: rest).map ServiceGen.exports).flatten := by
        rw [show ((s :: rest).foldl
          (fun (acc : Printer × List String × List String) sg =>
            (acc.1.print sg.text, acc.2.1 ++ sg.exports, acc.2.2 ++ sg.rpcExports))
          (px.print "\n;; Services.", pem.2, ([] : List String))).2
            = _ from s3]
      rw [this, m3, e3]
      simp [exportsOf, hsvc]
    · have : (s :: rest).foldl
          (fun (acc : Printer × List String × List String) sg =>
            (acc.1.print sg.text, acc.2.1 ++ sg.exports, acc.2.2 ++ sg.rpcExports))
          (px.print "\n;; Services.", pem.2, ([] : List String)) |>.2.2
          = [] ++ ((s :: rest).map ServiceGen.rpcExports).flatten := by
        rw [show ((s :: rest).foldl
          (fun (acc : Printer × List String × List String) sg =>
            (acc.1.print sg.text, acc.2.1 ++ sg.exports, acc.2.2 ++ sg.rpcExports))
          (px.print "\n;; Services.", pem.2, ([] : List String))).2
            = _ from s3]
      rw [this]
      simp [rpcExportsOf, hsvc]

theorem emitEpilogue_eq (fg : FileGenerator) (p : Printer) (h : p.indent = []) :
    emitEpilogue fg p = ⟨p.out ++ (epilogueText fg).data, [], true⟩ := by
  rw [emitEpilogue, print_nilIndent p _ h]
  simp only [epilogueText, String.data_append, Printer.mk.injEq]
  refine ⟨by simp, trivial, ?_⟩
  simp only [lastNL_append]
  rfl

/-- The text an export loop emits from a given pending separator. -/
def expJoin (sep : String) : List String → String
  | [] => ""
  | e :: rest => sep ++ e ++ expJoin "\n             " rest

theorem expJoin_data (e : String) (rest : List String) :
    ∀ sep : String, (expJoin sep (e :: rest)).data
      = sep.data ++ (sepJoin "\n             " (e :: rest)).data := by
  induction rest generalizing e with
  | nil => intro sep; simp [expJoin, sepJoin, String.data_append]
  | cons y t ih =>
    intro sep
    rw [show expJoin sep (e :: y :: t) = sep ++ e ++ expJoin "\n             " (y :: t)
        from rfl,
      show sepJoin "\n             " (e :: y :: t)
          = e ++ "\n             " ++ sepJoin "\n             " (y :: t) from rfl]
    simp [String.data_append, ih y]

theorem expFold (l : List String) (p : Printer) (sep : String) (h : p.indent = []) :
    (l.foldl (fun (acc : Printer × String) e =>
        ((acc.1.print acc.2).printRaw e, "\n             ")) (p, sep)).1.out
        = p.out ++ (expJoin sep l).data
      ∧ (l.foldl (fun (acc : Printer × String) e =>
        ((acc.1.print acc.2).printRaw e, "\n             ")) (p, sep)).1.indent = [] := by
  induction l generalizing p sep with
  | nil => simp [expJoin, h]
  | cons e rest ih =>
    rw [List.foldl_cons]
    have hsep := print_nilIndent p sep h
    have hraw := printRaw_nilIndent (p.print sep) e (by rw [print_indent, h])
    have ⟨ih1, ih2⟩ := ih ((p.print sep).printRaw e) "\n             " hraw.2
    refine ⟨?_, ih2⟩
    rw [ih1, hraw.1, print_out_nilIndent p sep h]
    simp [expJoin, String.data_append, expJoin_data]

theorem emitExports_eq (fg : FileGenerator) (exports rpcExports : List String)
    (p : Printer) (h : p.indent = []) :
    (emitExports fg exports rpcExports p).out
        = p.out ++ (exportsPhaseText fg exports rpcExports).data
      ∧ (emitExports fg exports rpcExports p).indent = [] := by
  rw [emitExports, exportsPhaseText]
  by_cases hl : fg.lisp_package_name = ""
  · rw [if_neg (by simp [hl]), if_neg (by simp [hl])]
    simp [h]
  · rw [if_pos hl, if_pos hl]
    have stmt : ∀ (l : List String) (q : Printer), q.indent = [] → l ≠ [] →
        ((l.foldl (fun (acc : Printer × String) e =>
            ((acc.1.print acc.2).printRaw e, "\n             "))
          (q.print "\n(cl:export \x27", "(")).1.print "))\n").out
            = q.out ++ (exportStmtText l).data
        ∧ ((l.foldl (fun (acc : Printer × String) e =>
            ((acc.1.print acc.2).printRaw e, "\n             "))
          (q.print "\n(cl:export \x27", "(")).1.print "))\n").indent = [] := by
      intro l q hq hne
      have h0 := print_nilIndent q "\n(cl:export \x27" hq
      have ⟨f1, f2⟩ := expFold l (q.print "\n(cl:export \x27") "(" (by rw [print_indent, hq])
      constructor
      · rw [print_out_nilIndent _ _ f2, f1, print_out_nilIndent q _ hq]
        cases l with
        | nil => exact absurd rfl hne
        | cons e rest =>
          rw [expJoin_data e rest "("]
          simp [exportStmtText, String.data_append]
      · rw [print_indent, f2]
    by_cases he : exports = []
    · have hne : ¬(exports ≠ []) := by simp [he]
      rw [if_neg hne, if_neg hne]
      by_cases hr : rpcExports = []
      · have hnr : ¬(rpcExports ≠ []) := by simp [hr]
        rw [if_neg hnr, if_neg hnr]
        simp [h]
      · have hpr : rpcExports ≠ [] := hr
        rw [if_pos hpr, if_pos hpr]
        have h1 := print_nilIndent p
          ("\n(cl:in-package \"" ++ fg.lisp_package_name ++ "-RPC\")\n") h
        have h2 := stmt rpcExports
          (p.print ("\n(cl:in-package \"" ++ fg.lisp_package_name ++ "-RPC\")\n"))
          (by rw [print_indent, h]) hr
        refine ⟨?_, h2.2⟩
        rw [h2.1, print_out_nilIndent p _ h]
        simp [String.data_append]
    · have hpe : exports ≠ [] := he
      rw [if_pos hpe, if_pos hpe]
      have hstmt1 := stmt exports p h he
      by_cases hr : rpcExports = []
      · have hnr : ¬(rpcExports ≠ []) := by simp [hr]
        rw [if_neg hnr, if_neg hnr]
        simpa using hstmt1
      · have hpr : rpcExports ≠ [] := hr
        rw [if_pos hpr, if_pos hpr]
        set q1 := ((exports.foldl (fun (acc : Printer × String) e =>
            ((acc.1.print acc.2).printRaw e, "\n             "))
          (p.print "\n(cl:export \x27", "(")).1.print "))\n") with hq1
        have h1 := print_out_nilIndent q1
          ("\n(cl:in-package \"" ++ fg.lisp_package_name ++ "-RPC\")\n") hstmt1.2
        have h2 := stmt rpcExports
          (q1.print ("\n(cl:in-package \"" ++ fg.lisp_package_name ++ "-RPC\")\n"))
          (by rw [print_indent, hstmt1.2]) hr
        refine ⟨?_, h2.2⟩
        rw [h2.1, h1, hstmt1.1]
        simp [String.data_append]

theorem noNL_append (a b : String) : noNL (a ++ b) = (noNL a && noNL b) := by
  simp [noNL, String.data_append, List.all_append]

theorem noNL_of_parts (a b : String) (h1 : noNL a = true) (h2 : noNL b = true) :
    noNL (a ++ b) = true := by
  simp [noNL_append, h1, h2]

theorem lastNL_strNL (a : String) (b : Bool) : lastNL (a ++ "\n").data b = true := by
  simp only [String.data_append, lastNL_append]
  rfl

theorem print_nl_then (p : Printer) (s : String) (h1 : noNL s = true)
    (h2 : s.data ≠ []) :
    p.print ("\n" ++ s) = ⟨p.out ++ ['\n'] ++ p.indent ++ s.data, p.indent, false⟩ := by
  rw [print_append, print_newline, print_noNL_start _ _ h1 h2 rfl]

theorem depFold (rest : List String) :
    ∀ q : Printer, q.indent = [' ', ' ', ' ', ' '] → q.atStart = false →
    (∀ d ∈ rest, noNL d = true) →
    (rest.foldl (fun (acc : Printer × String) dep =>
        ((acc.1.print acc.2).print ("\"" ++ dep ++ "\""), "\n          "))
      (q, "\n          ")).1
      = ⟨q.out ++ (strJoin (rest.map (fun x => "\n              " ++ quoted x))).data,
          [' ', ' ', ' ', ' '], false⟩ := by
  induction rest with
  | nil =>
    intro q hq hqa _
    cases q with
    | mk o i a =>
      simp at hq hqa
      subst hq
      subst hqa
      simp [strJoin]
  | cons d rest ih =>
    intro q hq hqa hnl
    rw [List.foldl_cons]
    have hsep : q.print "\n          " =
        ⟨q.out ++ ['\n'] ++ [' ', ' ', ' ', ' '] ++ "          ".data,
          [' ', ' ', ' ', ' '], false⟩ := by
      rw [show ("\n          " : String) = "\n" ++ "          " from rfl,
        print_nl_then q "          " rfl (by simp), hq]
    have hdq : noNL ("\"" ++ d ++ "\"") = true :=
      noNL_of_parts ("\"" ++ d) "\""
        (noNL_of_parts "\"" d rfl (hnl d (List.mem_cons_self d rest))) rfl
    have hquote : (⟨q.out ++ ['\n'] ++ [' ', ' ', ' ', ' '] ++ "          ".data,
          [' ', ' ', ' ', ' '], false⟩ : Printer).print ("\"" ++ d ++ "\"")
        = ⟨q.out ++ ['\n'] ++ [' ', ' ', ' ', ' '] ++ "          ".data
            ++ ("\"" ++ d ++ "\"").data, [' ', ' ', ' ', ' '], false⟩ :=
      print_noNL_mid _ _ hdq rfl
    rw [hsep, hquote, ih _ rfl rfl (fun x hx => hnl x (List.mem_cons_of_mem d hx))]
    congr 1
    simp only [strJoin, List.map_cons, String.data_append, List.append_assoc, quoted]
    rfl

set_option maxHeartbeats 1600000 in
theorem emitSchemaMeta_eq (fg : FileGenerator) (p : Printer) (h : p.indent = [])
    (ha : p.atStart = true) (hs : noNL fg.synTag = true)
    (hp : noNL fg.file.package = true)
    (hd : ∀ d ∈ fg.file.dependencies, noNL d = true) :
    emitSchemaMeta fg p = ⟨p.out ++ (metaText fg).data, [], true⟩ := by
  simp only [emitSchemaMeta]
  have hopen := print_nilIndent p
    ("\n(cl:eval-when (:compile-toplevel :load-toplevel :execute)\n(proto:define-schema \x27"
      ++ fg.schema_name ++ "\n") h
  rw [hopen]
  have hind : ((⟨p.out ++ ("\n(cl:eval-when (:compile-toplevel :load-toplevel :execute)\n(proto:define-schema \x27"
        ++ fg.schema_name ++ "\n").data, [],
        lastNL ("\n(cl:eval-when (:compile-toplevel :load-toplevel :execute)\n(proto:define-schema \x27"
          ++ fg.schema_name ++ "\n").data p.atStart⟩ : Printer).Indent.Indent)
      = ⟨p.out ++ ("\n(cl:eval-when (:compile-toplevel :load-toplevel :execute)\n(proto:define-schema \x27"
        ++ fg.schema_name ++ "\n").data, [' ', ' ', ' ', ' '], true⟩ := by
    simp only [Printer.Indent]
    congr 1
    exact lastNL_strNL _ _
  rw [hind]
  have hsyn : (⟨p.out ++ ("\n(cl:eval-when (:compile-toplevel :load-toplevel :execute)\n(proto:define-schema \x27"
        ++ fg.schema_name ++ "\n").data, [' ', ' ', ' ', ' '], true⟩ : Printer).print
        (":syntax " ++ fg.synTag ++ "\n")
      = ⟨p.out ++ ("\n(cl:eval-when (:compile-toplevel :load-toplevel :execute)\n(proto:define-schema \x27"
        ++ fg.schema_name ++ "\n").data ++ [' ', ' ', ' ', ' ']
        ++ (":syntax " ++ fg.synTag).data ++ ['\n'], [' ', ' ', ' ', ' '], true⟩ := by
    rw [print_append, print_noNL_start _ _ (noNL_of_parts ":syntax " fg.synTag rfl hs)
        (by simp [String.data_append]) rfl, print_newline]
  rw [hsyn]
  set out0 := p.out ++ ("\n(cl:eval-when (:compile-toplevel :load-toplevel :execute)\n(proto:define-schema \x27"
    ++ fg.schema_name ++ "\n").data ++ [' ', ' ', ' ', ' ']
    ++ (":syntax " ++ fg.synTag).data ++ ['\n'] with hout0
  by_cases hpkg : fg.file.package ≠ ""
  · rw [if_pos hpkg, print_empty]
    have hpkgline : (⟨out0, [' ', ' ', ' ', ' '], true⟩ : Printer).print
          (":package \"" ++ fg.file.package ++ "\"")
        = ⟨out0 ++ [' ', ' ', ' ', ' '] ++ (":package \"" ++ fg.file.package ++ "\"").data,
            [' ', ' ', ' ', ' '], false⟩ := by
      rw [print_noNL_start _ _ (noNL_of_parts (":package \"" ++ fg.file.package) "\""
          (noNL_of_parts ":package \"" fg.file.package rfl hp) rfl)
        (by simp [String.data_append]) rfl]
    rw [hpkgline]
    cases hdeps : fg.file.dependencies with
    | nil =>
      rw [if_neg (by simp [hdeps])]
      have hclose : (⟨out0 ++ [' ', ' ', ' ', ' ']
            ++ (":package \"" ++ fg.file.package ++ "\"").data,
            [' ', ' ', ' ', ' '], false⟩ : Printer).print "))\n"
          = ⟨out0 ++ [' ', ' ', ' ', ' ']
            ++ (":package \"" ++ fg.file.package ++ "\"").data ++ "))\n".data,
              [' ', ' ', ' ', ' '], true⟩ := by
        rw [show ("))\n" : String) = "))" ++ "\n" from rfl, print_append,
          print_noNL_mid _ "))" rfl rfl, print_newline]
        simp [String.data_append]
      rw [hclose]
      simp only [Printer.Outdent]
      congr 1
      rw [hout0]
      simp [metaText, metaOptionsText, hpkg, hdeps, quoted, String.data_append,
        List.append_assoc]
    | cons d rest =>
      rw [if_pos (by simp [hdeps])]
      have hsep2 : (⟨out0 ++ [' ', ' ', ' ', ' ']
            ++ (":package \"" ++ fg.file.package ++ "\"").data,
            [' ', ' ', ' ', ' '], false⟩ : Printer).print "\n "
          = ⟨out0 ++ [' ', ' ', ' ', ' ']
            ++ (":package \"" ++ fg.file.package ++ "\"").data
            ++ ['\n'] ++ [' ', ' ', ' ', ' '] ++ " ".data,
              [' ', ' ', ' ', ' '], false⟩ := by
        rw [show ("\n " : String) = "\n" ++ " " from rfl,
          print_nl_then _ " " rfl (by simp)]
      rw [hsep2]
      have himp : (⟨out0 ++ [' ', ' ', ' ', ' ']
            ++ (":package \"" ++ fg.file.package ++ "\"").data
            ++ ['\n'] ++ [' ', ' ', ' ', ' '] ++ " ".data,
              [' ', ' ', ' ', ' '], false⟩ : Printer).print ":import \x27("
          = ⟨out0 ++ [' ', ' ', ' ', ' ']
            ++ (":package \"" ++ fg.file.package ++ "\"").data
            ++ ['\n'] ++ [' ', ' ', ' ', ' '] ++ " ".data ++ ":import \x27(".data,
              [' ', ' ', ' ', ' '], false⟩ := by
        rw [print_noNL_mid _ ":import \x27(" rfl rfl]
      rw [himp, List.foldl_cons, print_empty]
      have hfirst : (⟨out0 ++ [' ', ' ', ' ', ' ']
            ++ (":package \"" ++ fg.file.package ++ "\"").data
            ++ ['\n'] ++ [' ', ' ', ' ', ' '] ++ " ".data ++ ":import \x27(".data,
              [' ', ' ', ' ', ' '], false⟩ : Printer).print ("\"" ++ d ++ "\"")
          = ⟨out0 ++ [' ', ' ', ' ', ' ']
            ++ (":package \"" ++ fg.file.package ++ "\"").data
            ++ ['\n'] ++ [' ', ' ', ' ', ' '] ++ " ".data ++ ":import \x27(".data
            ++ ("\"" ++ d ++ "\"").data,
              [' ', ' ', ' ', ' '], false⟩ := by
        rw [print_noNL_mid _ ("\"" ++ d ++ "\"")
          (noNL_of_parts ("\"" ++ d) "\"" (noNL_of_parts "\"" d rfl
            (hd d (by rw [hdeps]; exact List.mem_cons_self d rest))) rfl) rfl]
      rw [hfirst, depFold rest _ rfl rfl
        (fun x hx => hd x (by rw [hdeps]; exact List.mem_cons_of_mem d hx))]
      have hparen : ∀ o : List Char, (⟨o, [' ', ' ', ' ', ' '], false⟩ : Printer).print ")"
          = ⟨o ++ ")".data, [' ', ' ', ' ', ' '], false⟩ := by
        intro o
        rw [print_noNL_mid _ ")" rfl rfl]
      rw [hparen]
      have hclose : ∀ o : List Char, (⟨o, [' ', ' ', ' ', ' '], false⟩ : Printer).print "))\n"
          = ⟨o ++ "))\n".data, [' ', ' ', ' ', ' '], true⟩ := by
        intro o
        rw [show ("))\n" : String) = "))" ++ "\n" from rfl, print_append,
          print_noNL_mid _ "))" rfl rfl, print_newline]
        simp [String.data_append]
      rw [hclose]
      simp only [Printer.Outdent]
      congr 1
      rw [hout0]
      simp [metaText, metaOptionsText, importListText, hpkg, hdeps, quoted,
        String.data_append, List.append_assoc]
  · rw [if_neg hpkg]
    cases hdeps : fg.file.dependencies with
    | nil =>
      rw [if_neg (by simp [hdeps])]
      have hclose : (⟨out0, [' ', ' ', ' ', ' '], true⟩ : Printer).print "))\n"
          = ⟨out0 ++ [' ', ' ', ' ', ' '] ++ "))\n".data, [' ', ' ', ' ', ' '], true⟩ := by
        rw [show ("))\n" : String) = "))" ++ "\n" from rfl, print_append,
          print_noNL_start _ "))" rfl (by simp) rfl, print_newline]
        simp [String.data_append]
      rw [hclose]
      simp only [Printer.Outdent]
      congr 1
      rw [hout0]
      have hpkg0 : fg.file.package = "" := by simpa using hpkg
      simp [metaText, metaOptionsText, hpkg0, hdeps, quoted, String.data_append,
        List.append_assoc]
    | cons d rest =>
      rw [if_pos (by simp [hdeps]), print_empty]
      have himp : (⟨out0, [' ', ' ', ' ', ' '], true⟩ : Printer).print ":import \x27("
          = ⟨out0 ++ [' ', ' ', ' ', ' '] ++ ":import \x27(".data,
              [' ', ' ', ' ', ' '], false⟩ := by
        rw [print_noNL_start _ ":import \x27(" rfl (by simp) rfl]
      rw [himp, List.foldl_cons, print_empty]
      have hfirst : (⟨out0 ++ [' ', ' ', ' ', ' '] ++ ":import \x27(".data,
              [' ', ' ', ' ', ' '], false⟩ : Printer).print ("\"" ++ d ++ "\"")
          = ⟨out0 ++ [' ', ' ', ' ', ' '] ++ ":import \x27(".data
              ++ ("\"" ++ d ++ "\"").data, [' ', ' ', ' ', ' '], false⟩ := by
        rw [print_noNL_mid _ ("\"" ++ d ++ "\"")
          (noNL_of_parts ("\"" ++ d) "\"" (noNL_of_parts "\"" d rfl
            (hd d (by rw [hdeps]; exact List.mem_cons_self d rest))) rfl) rfl]
      rw [hfirst, depFold rest _ rfl rfl
        (fun x hx => hd x (by rw [hdeps]; exact List.mem_cons_of_mem d hx))]
      have hparen : ∀ o : List Char, (⟨o, [' ', ' ', ' ', ' '], false⟩ : Printer).print ")"
          = ⟨o ++ ")".data, [' ', ' ', ' ', ' '], false⟩ := by
        intro o
        rw [print_noNL_mid _ ")" rfl rfl]
      rw [hparen]
      have hclose : ∀ o : List Char, (⟨o, [' ', ' ', ' ', ' '], false⟩ : Printer).print "))\n"
          = ⟨o ++ "))\n".data, [' ', ' ', ' ', ' '], true⟩ := by
        intro o
        rw [show ("))\n" : String) = "))" ++ "\n" from rfl, print_append,
          print_noNL_mid _ "))" rfl rfl, print_newline]
        simp [String.data_append]
      rw [hclose]
      simp only [Printer.Outdent]
      congr 1
      rw [hout0]
      have hpkg0 : fg.file.package = "" := by simpa using hpkg
      simp [metaText, metaOptionsText, importListText, hpkg0, hdeps, quoted,
        String.data_append, List.append_assoc]

/-- All substituted values that reach the indented metadata block are
single-line: the syntax tag, the declared package and every dependency
name.  Real descriptor names never contain newline characters. -/
def singleLineMeta (fg : FileGenerator) : Prop :=
  noNL fg.synTag = true ∧ noNL fg.file.package = true
    ∧ ∀ d ∈ fg.file.dependencies, noNL d = true

/-- Closed form of a whole GenerateSource run: the output extends the sink
by the full generated text, phase by phase in source order. -/
theorem generateSource_out (fg : FileGenerator) (p : Printer) (h : p.indent = [])
    (hm : singleLineMeta fg) :
    (GenerateSource fg p).out = p.out ++ (fullText fg).data := by
  obtain ⟨hs, hp, hd⟩ := hm
  rw [GenerateSource]
  have h1 := emitHeader_eq fg p h
  rw [h1]
  have h2 := emitPackageDecls_eq fg ⟨p.out ++ (headerText fg).data, [], true⟩ rfl
  rw [h2]
  have h3 := emitInPackage_eq fg
    ⟨p.out ++ (headerText fg).data ++ (pkgDeclsText fg).data, [], true⟩ rfl
  rw [h3]
  have hstart : (if fg.lisp_package_name = ""
      then (⟨p.out ++ (headerText fg).data ++ (pkgDeclsText fg).data, [], true⟩ : Printer).atStart
      else true) = true := by
    by_cases hl : fg.lisp_package_name = "" <;> simp [hl]
  have h4 := emitSchemaMeta_eq fg
    ⟨p.out ++ (headerText fg).data ++ (pkgDeclsText fg).data
        ++ (inPackageText fg).data, [],
      if fg.lisp_package_name = ""
      then (⟨p.out ++ (headerText fg).data ++ (pkgDeclsText fg).data, [], true⟩ : Printer).atStart
      else true⟩ rfl hstart hs hp hd
  rw [h4]
  obtain ⟨e1, e2, e3, e4⟩ := emitEntities_eq fg
    ⟨p.out ++ (headerText fg).data ++ (pkgDeclsText fg).data
      ++ (inPackageText fg).data ++ (metaText fg).data, [], true⟩ rfl
  have h5 := emitEpilogue_eq fg (emitEntities fg
    ⟨p.out ++ (headerText fg).data ++ (pkgDeclsText fg).data
      ++ (inPackageText fg).data ++ (metaText fg).data, [], true⟩).1 e2
  rw [h5]
  have h6 := emitExports_eq fg
    (emitEntities fg ⟨p.out ++ (headerText fg).data ++ (pkgDeclsText fg).data
      ++ (inPackageText fg).data ++ (metaText fg).data, [], true⟩).2.1
    (emitEntities fg ⟨p.out ++ (headerText fg).data ++ (pkgDeclsText fg).data
      ++ (inPackageText fg).data ++ (metaText fg).data, [], true⟩).2.2
    ⟨(emitEntities fg ⟨p.out ++ (headerText fg).data ++ (pkgDeclsText fg).data
        ++ (inPackageText fg).data ++ (metaText fg).data, [], true⟩).1.out
      ++ (epilogueText fg).data, [], true⟩ rfl
  rw [h6.1, e1, e3, e4]
  simp [fullText, String.data_append, List.append_assoc]

/-- The generated text of a descriptor, as a function of the descriptor
value alone. -/
theorem generateFile_eq (file : FileDescriptor)
    (fg : FileGenerator) (hfg : FileGenerator.make file = some fg)
    (hm : singleLineMeta fg) :
    generateFile file = some (fullText fg) := by
  rw [generateFile, hfg]
  simp only [Option.map_some']
  have := generateSource_out fg Printer.fresh rfl hm
  rw [show Printer.fresh.out = [] from rfl] at this
  rw [this]
  cases hft : fullText fg with
  | mk l => rfl

theorem takeWhile_all {q : Char → Bool} : ∀ l : List Char,
    (∀ c ∈ l, q c = true) → l.takeWhile q = l := by
  intro l
  induction l with
  | nil => intro _; rfl
  | cons c rest ih =>
    intro hall
    rw [List.takeWhile_cons, hall c (List.mem_cons_self c rest), if_pos rfl,
      ih (fun x hx => hall x (List.mem_cons_of_mem c hx))]

theorem takeWhile_all_append {q : Char → Bool} : ∀ (u : List Char) (x : Char)
    (v : List Char), (∀ c ∈ u, q c = true) → q x = false →
    (u ++ x :: v).takeWhile q = u := by
  intro u
  induction u with
  | nil =>
    intro x v _ hx
    simp [List.takeWhile_cons, hx]
  | cons c t ih =>
    intro x v hu hx
    rw [List.cons_append, List.takeWhile_cons, hu c (List.mem_cons_self c t),
      if_pos rfl, ih x v (fun y hy => hu y (List.mem_cons_of_mem c hy)) hx]

theorem dropWhile_all_append {q : Char → Bool} : ∀ (u : List Char) (x : Char)
    (v : List Char), (∀ c ∈ u, q c = true) → q x = false →
    (u ++ x :: v).dropWhile q = x :: v := by
  intro u
  induction u with
  | nil =>
    intro x v _ hx
    simp [List.dropWhile_cons, hx]
  | cons c t ih =>
    intro x v hu hx
    rw [List.cons_append, List.dropWhile_cons, if_pos (hu c (List.mem_cons_self c t)),
      ih x v (fun y hy => hu y (List.mem_cons_of_mem c hy)) hx]

theorem findLastIdx_none (pred : Char → Bool) : ∀ l : List Char,
    findLastIdx pred l = none → ∀ c ∈ l, pred c = false := by
  intro l
  induction l with
  | nil => intro _ c hc; cases hc
  | cons c rest ih =>
    intro hnone x hx
    rw [findLastIdx] at hnone
    cases h2 : findLastIdx pred rest with
    | some i => rw [h2] at hnone; cases hnone
    | none =>
      rw [h2] at hnone
      by_cases hc : pred c = true
      · rw [if_pos hc] at hnone; cases hnone
      · rcases List.mem_cons.mp hx with hx1 | hx2
        · subst hx1; simpa using hc
        · exact ih h2 x hx2

theorem findLastIdx_some (pred : Char → Bool) : ∀ (l : List Char) (i : Nat),
    findLastIdx pred l = some i →
    ∃ a x b, l = a ++ x :: b ∧ a.length = i ∧ pred x = true
      ∧ ∀ c ∈ b, pred c = false := by
  intro l
  induction l with
  | nil => intro i hi; cases hi
  | cons c rest ih =>
    intro i hi
    rw [findLastIdx] at hi
    cases h2 : findLastIdx pred rest with
    | some j =>
      rw [h2] at hi
      obtain ⟨a, x, b, hl, hlen, hx, hb⟩ := ih j h2
      refine ⟨c :: a, x, b, by rw [hl, List.cons_append], ?_, hx, hb⟩
      simp at hi
      simp [hlen, ← hi]
    | none =>
      rw [h2] at hi
      by_cases hc : pred c = true
      · rw [if_pos hc] at hi
        simp at hi
        exact ⟨[], c, rest, rfl, by simp [← hi], hc, findLastIdx_none pred rest h2⟩
      · rw [if_neg hc] at hi
        cases hi

theorem eraseThroughLastSlash_spec (s : List Char) :
    eraseThroughLastSlash s = specBaseName s := by
  rw [eraseThroughLastSlash]
  split
  next i h =>
    obtain ⟨a, x, b, hl, hlen, hx, hb⟩ := findLastIdx_some isSlashChar s i h
    subst hl
    rw [specBaseName, List.reverse_append, List.reverse_cons, List.append_assoc,
      List.singleton_append,
      takeWhile_all_append b.reverse x a.reverse
        (fun c hc => by simp [hb c (List.mem_reverse.mp hc)])
        (by simp [hx]),
      List.reverse_reverse,
      show a ++ x :: b = (a ++ [x]) ++ b by simp,
      List.drop_left' (by simp [hlen])]
  next h =>
    rw [specBaseName, takeWhile_all s.reverse
      (fun c hc => by
        simp [findLastIdx_none isSlashChar s h c (List.mem_reverse.mp hc)]),
      List.reverse_reverse]

theorem eraseFromLastPeriod_spec (s : List Char) :
    eraseFromLastPeriod s = specStripExt s := by
  rw [eraseFromLastPeriod]
  split
  next i h =>
    obtain ⟨a, x, b, hl, hlen, hx, hb⟩ := findLastIdx_some _ s i h
    subst hl
    rw [specStripExt, if_pos (List.any_eq_true.mpr ⟨x, by simp, hx⟩)]
    rw [List.reverse_append, List.reverse_cons, List.append_assoc,
      List.singleton_append,
      dropWhile_all_append b.reverse x a.reverse
        (fun c hc => by simp [hb c (List.mem_reverse.mp hc)])
        (by simp [hx]),
      List.drop_one, List.tail_cons, List.reverse_reverse,
      List.take_left' hlen]
  next h =>
    rw [specStripExt, if_neg ?hno]
    case hno =>
      intro hcontra
      rw [List.any_eq_true] at hcontra
      obtain ⟨c, hc, hceq⟩ := hcontra
      simp [findLastIdx_none _ s h c hc] at hceq

theorem mem_setInsert (x y : String) : ∀ s : List String,
    y ∈ setInsert s x ↔ y = x ∨ y ∈ s := by
  intro s
  induction s with
  | nil => simp [setInsert]
  | cons z zs ih =>
    rw [setInsert]
    by_cases h1 : x < z
    · rw [if_pos h1]
      simp
    · rw [if_neg h1]
      by_cases h2 : x = z
      · rw [if_pos h2]
        subst h2
        simp only [List.mem_cons]
        constructor
        · intro hm; exact Or.inr hm
        · rintro (hm | hm)
          · subst hm; exact Or.inl rfl
          · exact hm
      · rw [if_neg h2]
        simp only [List.mem_cons, ih]
        tauto

theorem pairwise_setInsert (x : String) : ∀ s : List String,
    List.Pairwise (fun a b => a < b) s →
    List.Pairwise (fun a b => a < b) (setInsert s x) := by
  intro s
  induction s with
  | nil =>
    intro _
    simp [setInsert]
  | cons z zs ih =>
    intro hp
    rw [List.pairwise_cons] at hp
    obtain ⟨hz, hzs⟩ := hp
    rw [setInsert]
    by_cases h1 : x < z
    · rw [if_pos h1]
      rw [List.pairwise_cons]
      refine ⟨?_, List.pairwise_cons.mpr ⟨hz, hzs⟩⟩
      intro y hy
      rcases List.mem_cons.mp hy with hy1 | hy2
      · subst hy1; exact h1
      · exact lt_trans h1 (hz y hy2)
    · rw [if_neg h1]
      by_cases h2 : x = z
      · rw [if_pos h2]
        exact List.pairwise_cons.mpr ⟨hz, hzs⟩
      · rw [if_neg h2]
        rw [List.pairwise_cons]
        have hzx : z < x :=
          lt_of_le_of_ne (le_of_not_lt h1) (fun he => h2 he.symm)
        refine ⟨?_, ih hzs⟩
        intro y hy
        rcases (mem_setInsert x y zs).mp hy with hy1 | hy2
        · subst hy1; exact hzx
        · exact hz y hy2

theorem strictSorted_eq_of_mem_iff : ∀ (l1 l2 : List String),
    List.Pairwise (fun a b => a < b) l1 → List.Pairwise (fun a b => a < b) l2 →
    (∀ x, x ∈ l1 ↔ x ∈ l2) → l1 = l2 := by
  intro l1
  induction l1 with
  | nil =>
    intro l2 _ _ hiff
    cases l2 with
    | nil => rfl
    | cons b t2 => exact absurd ((hiff b).mpr (List.mem_cons_self b t2)) (by simp)
  | cons a t1 ih =>
    intro l2 hp1 hp2 hiff
    cases l2 with
    | nil => exact absurd ((hiff a).mp (List.mem_cons_self a t1)) (by simp)
    | cons b t2 =>
      rw [List.pairwise_cons] at hp1 hp2
      have hab : a = b := by
        rcases List.mem_cons.mp ((hiff a).mp (List.mem_cons_self a t1)) with h1 | h1
        · exact h1
        · rcases List.mem_cons.mp ((hiff b).mpr (List.mem_cons_self b t2)) with h2 | h2
          · exact h2.symm
          · exact absurd (hp1.1 b h2) (not_lt_of_lt (hp2.1 a h1))
      subst hab
      have htail : ∀ x, x ∈ t1 ↔ x ∈ t2 := by
        intro x
        constructor
        · intro hx
          rcases List.mem_cons.mp ((hiff x).mp (List.mem_cons_of_mem a hx)) with h1 | h1
          · subst h1; exact absurd (hp1.1 x hx) (lt_irrefl x)
          · exact h1
        · intro hx
          rcases List.mem_cons.mp ((hiff x).mpr (List.mem_cons_of_mem a hx)) with h1 | h1
          · subst h1; exact absurd (hp2.1 x hx) (lt_irrefl x)
          · exact h1
      rw [ih t2 hp1.2 hp2.2 htail]

theorem mem_foldl_setInsert : ∀ (l : List String) (s : List String) (x : String),
    x ∈ l.foldl setInsert s ↔ x ∈ s ∨ x ∈ l := by
  intro l
  induction l with
  | nil => simp
  | cons y ys ih =>
    intro s x
    rw [List.foldl_cons, ih, mem_setInsert]
    simp only [List.mem_cons]
    tauto

theorem pairwise_foldl_setInsert : ∀ (l : List String) (s : List String),
    List.Pairwise (fun a b => a < b) s →
    List.Pairwise (fun a b => a < b) (l.foldl setInsert s) := by
  intro l
  induction l with
  | nil => intro s hs; exact hs
  | cons y ys ih =>
    intro s hs
    exact ih (setInsert s y) (pairwise_setInsert y s hs)

theorem computePackages_sorted (fg : FileGenerator) :
    List.Pairwise (fun a b => a < b) (computePackages fg) :=
  pairwise_foldl_setInsert (packageInsertions fg) [] List.Pairwise.nil

theorem mem_computePackages (fg : FileGenerator) (x : String) :
    x ∈ computePackages fg ↔ x ∈ packageInsertions fg := by
  rw [computePackages, mem_foldl_setInsert]
  simp

theorem computePackages_perm_invariant (fg : FileGenerator) (l : List String)
    (hperm : l.Perm (packageInsertions fg)) :
    l.foldl setInsert [] = computePackages fg := by
  refine strictSorted_eq_of_mem_iff _ _
    (pairwise_foldl_setInsert l [] List.Pairwise.nil)
    (computePackages_sorted fg) ?_
  intro x
  rw [mem_foldl_setInsert, mem_computePackages]
  simp [hperm.mem_iff]

/-- A concrete enum generator used to instantiate theorems. -/
def sampleEnum : EnumGen :=
  { text := "\nENUM-TEXT\n", exports := ["PHONE-TYPE"] }

/-- A concrete message generator used to instantiate theorems. -/
def sampleMessage : MessageGen :=
  { text := "\nMESSAGE-TEXT\n", exports := ["PERSON"],
    packages := ["CL-PROTOBUFS.OTHER"] }

/-- A concrete service generator used to instantiate theorems. -/
def sampleService : ServiceGen :=
  { text := "\nSERVICE-TEXT\n", exports := ["GREETER"],
    rpcExports := ["CALL-GREET"] }

/-- A concrete extension generator used to instantiate theorems. -/
def sampleExtension : ExtensionGen := { text := "\nEXTENSION-TEXT\n" }

/-- A concrete schema file used to instantiate theorems. -/
def sampleFile : FileDescriptor :=
  { name := "proto/Address.Book.proto", package := "tutorial",
    synVer := SyntaxVersion.proto3, dependencies := ["base.proto"],
    enums := [sampleEnum], messages := [sampleMessage],
    extensions := [sampleExtension], services := [sampleService],
    lispPackage := "CL-PROTOBUFS.TUTORIAL" }

/-- The file generator the constructor builds for sampleFile. -/
def sampleFG : FileGenerator :=
  { file := sampleFile, lisp_package_name := "CL-PROTOBUFS.TUTORIAL",
    schema_name := "address.book", synTag := ":proto3" }

/-- A concrete empty schema file. -/
def emptyFile : FileDescriptor :=
  { name := "empty.proto", package := "", synVer := SyntaxVersion.proto2,
    dependencies := [], enums := [], messages := [], extensions := [],
    services := [], lispPackage := "CL-PROTOBUFS.EMPTY" }

/-- The file generator the constructor builds for emptyFile. -/
def emptyFG : FileGenerator :=
  { file := emptyFile, lisp_package_name := "CL-PROTOBUFS.EMPTY",
    schema_name := "empty", synTag := ":proto2" }

/-- A generator whose derived lisp package name is empty, with a service
still contributing RPC exports. -/
def noPkgFG : FileGenerator :=
  { file := { sampleFile with lispPackage := "" },
    lisp_package_name := "", schema_name := "address.book",
    synTag := ":proto3" }

/-- C1: GenerateSource emits top-level enums, then top-level messages,
then top-level extensions, then services, each group iterated in
descriptor declaration order, and the export list accumulates the schema
name followed by every enum export, every message export and every
service export in that order, while services additionally accumulate the
RPC export list. -/
theorem c1_entity_emission_order (fg : FileGenerator) (p : Printer)
    (h : p.indent = []) :
    (emitEntities fg p).1.out = p.out
        ++ (sectionText "\n;; Top-Level enums." (fg.file.enums.map EnumGen.text)
          ++ sectionText "\n;; Top-Level messages." (fg.file.messages.map MessageGen.text)
          ++ sectionText "\n;; Top-Level extensions." (fg.file.extensions.map ExtensionGen.text)
          ++ sectionText "\n;; Services." (fg.file.services.map ServiceGen.text)).data
      ∧ (emitEntities fg p).2.1
        = fg.schema_name
          :: ((fg.file.enums.map EnumGen.exports).flatten
            ++ (fg.file.messages.map MessageGen.exports).flatten
            ++ (fg.file.services.map ServiceGen.exports).flatten)
      ∧ (emitEntities fg p).2.2 = (fg.file.services.map ServiceGen.rpcExports).flatten := by
  obtain ⟨e1, _, e3, e4⟩ := emitEntities_eq fg p h
  exact ⟨by rw [e1]; rfl, by rw [e3]; rfl, by rw [e4]; rfl⟩

theorem c1_entity_emission_order_witness :
    Printer.fresh.indent = []
    ∧ ((emitEntities sampleFG Printer.fresh).1.out = Printer.fresh.out
        ++ (sectionText "\n;; Top-Level enums." (sampleFG.file.enums.map EnumGen.text)
          ++ sectionText "\n;; Top-Level messages." (sampleFG.file.messages.map MessageGen.text)
          ++ sectionText "\n;; Top-Level extensions." (sampleFG.file.extensions.map ExtensionGen.text)
          ++ sectionText "\n;; Services." (sampleFG.file.services.map ServiceGen.text)).data
      ∧ (emitEntities sampleFG Printer.fresh).2.1
        = sampleFG.schema_name
          :: ((sampleFG.file.enums.map EnumGen.exports).flatten
            ++ (sampleFG.file.messages.map MessageGen.exports).flatten
            ++ (sampleFG.file.services.map ServiceGen.exports).flatten)
      ∧ (emitEntities sampleFG Printer.fresh).2.2
        = (sampleFG.file.services.map ServiceGen.rpcExports).flatten) :=
  ⟨rfl, c1_entity_emission_order sampleFG Printer.fresh rfl⟩

/-- C2: constructing a FileGenerator for a file whose syntax version is
neither proto2 nor proto3 aborts fatally, so no generator is produced;
for proto2 the stored syntax tag is ":proto2" and for proto3 it is
":proto3". -/
theorem c2_syntax_validation (file : FileDescriptor) :
    (file.synVer = SyntaxVersion.unknown → FileGenerator.make file = none)
    ∧ (file.synVer = SyntaxVersion.proto2 →
        ∃ fg, FileGenerator.make file = some fg ∧ fg.synTag = ":proto2")
    ∧ (file.synVer = SyntaxVersion.proto3 →
        ∃ fg, FileGenerator.make file = some fg ∧ fg.synTag = ":proto3") := by
  refine ⟨?_, ?_, ?_⟩ <;> intro h <;> rw [FileGenerator.make, h]
  · exact ⟨_, rfl, rfl⟩
  · exact ⟨_, rfl, rfl⟩

theorem c2_syntax_validation_witness :
    (({ sampleFile with synVer := SyntaxVersion.unknown } : FileDescriptor).synVer
        = SyntaxVersion.unknown
      ∧ FileGenerator.make { sampleFile with synVer := SyntaxVersion.unknown } = none)
    ∧ (({ sampleFile with synVer := SyntaxVersion.proto2 } : FileDescriptor).synVer
        = SyntaxVersion.proto2
      ∧ ∃ fg, FileGenerator.make { sampleFile with synVer := SyntaxVersion.proto2 }
          = some fg ∧ fg.synTag = ":proto2")
    ∧ (sampleFile.synVer = SyntaxVersion.proto3
      ∧ ∃ fg, FileGenerator.make sampleFile = some fg ∧ fg.synTag = ":proto3") :=
  ⟨⟨rfl, (c2_syntax_validation _).1 rfl⟩,
    ⟨rfl, (c2_syntax_validation _).2.1 rfl⟩,
    ⟨rfl, (c2_syntax_validation sampleFile).2.2 rfl⟩⟩

/-- C5: for every input path the normalized schema identifier is the base
name (the text after the last forward slash or backslash, whichever comes
last) with the last period-delimited extension removed, lowercased. -/
theorem c5_schema_name_normalization (name : String) :
    deriveSchemaName name = specSchemaId name := by
  rw [deriveSchemaName, specSchemaId, eraseThroughLastSlash_spec,
    eraseFromLastPeriod_spec]

/-- C3: the emitted namespace declarations cover exactly the union of the
own target namespace (when non-empty), the RPC namespace (when the file
has at least one service), and every namespace contributed by message
field resolution; each distinct namespace is declared exactly once, in
ascending lexicographic order, independent of insertion order. -/
theorem c3_package_declarations (fg : FileGenerator) (p : Printer)
    (h : p.indent = []) :
    (∀ x, x ∈ computePackages fg ↔
        ((fg.lisp_package_name ≠ "" ∧ x = fg.lisp_package_name)
          ∨ (fg.lisp_package_name ≠ "" ∧ fg.file.services.length > 0
              ∧ x = fg.lisp_package_name ++ "-RPC")
          ∨ ∃ m ∈ fg.file.messages, x ∈ m.packages))
      ∧ List.Pairwise (fun a b => a < b) (computePackages fg)
      ∧ (computePackages fg).Nodup
      ∧ (∀ l : List String, l.Perm (packageInsertions fg) →
          l.foldl setInsert [] = computePackages fg)
      ∧ emitPackageDecls fg p
        = ⟨p.out ++ (sbclText ++ strJoin ((computePackages fg).map declText)).data,
            [], true⟩ := by
  refine ⟨?_, computePackages_sorted fg, ?_, computePackages_perm_invariant fg,
    emitPackageDecls_eq fg p h⟩
  · intro x
    rw [mem_computePackages, packageInsertions]
    by_cases hl : fg.lisp_package_name = "" <;>
      by_cases hsv : fg.file.services.length > 0 <;>
        simp [hl, hsv, List.mem_flatten, List.mem_map]
  · exact List.Pairwise.imp (fun hab => ne_of_lt hab) (computePackages_sorted fg)

theorem c3_package_declarations_witness :
    Printer.fresh.indent = []
    ∧ ((∀ x, x ∈ computePackages sampleFG ↔
        ((sampleFG.lisp_package_name ≠ "" ∧ x = sampleFG.lisp_package_name)
          ∨ (sampleFG.lisp_package_name ≠ "" ∧ sampleFG.file.services.length > 0
              ∧ x = sampleFG.lisp_package_name ++ "-RPC")
          ∨ ∃ m ∈ sampleFG.file.messages, x ∈ m.packages))
      ∧ List.Pairwise (fun a b => a < b) (computePackages sampleFG)
      ∧ (computePackages sampleFG).Nodup
      ∧ (∀ l : List String, l.Perm (packageInsertions sampleFG) →
          l.foldl setInsert [] = computePackages sampleFG)
      ∧ emitPackageDecls sampleFG Printer.fresh
        = ⟨Printer.fresh.out
            ++ (sbclText ++ strJoin ((computePackages sampleFG).map declText)).data,
            [], true⟩) :=
  ⟨rfl, c3_package_declarations sampleFG Printer.fresh rfl⟩

/-- C4: an empty schema file still yields the namespace scaffolding, the
schema metadata block and the registration epilogue; the type export list
still carries the schema name, the RPC export list is empty, and no
export statement with an empty list is emitted (the only export statement
carries the schema name, and only when the package name is non-empty). -/
theorem c4_empty_file (fg : FileGenerator)
    (he : fg.file.enums = []) (hmsg : fg.file.messages = [])
    (hx : fg.file.extensions = []) (hsv : fg.file.services = [])
    (hm : singleLineMeta fg) :
    (GenerateSource fg Printer.fresh).out
        = (headerText fg ++ pkgDeclsText fg ++ inPackageText fg ++ metaText fg
          ++ epilogueText fg
          ++ (if fg.lisp_package_name ≠ "" then exportStmtText [fg.schema_name]
              else "")).data
      ∧ exportsOf fg = [fg.schema_name] ∧ rpcExportsOf fg = [] := by
  have hexp : exportsOf fg = [fg.schema_name] := by
    simp [exportsOf, he, hmsg, hsv]
  have hrpc : rpcExportsOf fg = [] := by simp [rpcExportsOf, hsv]
  refine ⟨?_, hexp, hrpc⟩
  rw [generateSource_out fg Printer.fresh rfl hm,
    show Printer.fresh.out = [] from rfl]
  rw [fullText, hexp, hrpc]
  simp [entitiesText, sectionText, he, hmsg, hx, hsv, exportsPhaseText,
    String.data_append, List.append_assoc]

theorem c4_empty_file_witness :
    (emptyFG.file.enums = [] ∧ emptyFG.file.messages = []
      ∧ emptyFG.file.extensions = [] ∧ emptyFG.file.services = []
      ∧ singleLineMeta emptyFG)
    ∧ ((GenerateSource emptyFG Printer.fresh).out
        = (headerText emptyFG ++ pkgDeclsText emptyFG ++ inPackageText emptyFG
          ++ metaText emptyFG ++ epilogueText emptyFG
          ++ (if emptyFG.lisp_package_name ≠ "" then exportStmtText [emptyFG.schema_name]
              else "")).data
      ∧ exportsOf emptyFG = [emptyFG.schema_name] ∧ rpcExportsOf emptyFG = []) :=
  ⟨⟨rfl, rfl, rfl, rfl, ⟨rfl, rfl, by decide⟩⟩,
    c4_empty_file emptyFG rfl rfl rfl rfl ⟨rfl, rfl, by decide⟩⟩

/-- C6: the metadata block always contains the syntax tag, a package
clause exactly when the declared package is non-empty, and an import
clause exactly when the file has dependencies, in original descriptor
order (the closed form metaOptionsText makes each condition explicit). -/
theorem c6_schema_metadata (fg : FileGenerator) (p : Printer)
    (h : p.indent = []) (ha : p.atStart = true) (hm : singleLineMeta fg) :
    emitSchemaMeta fg p = ⟨p.out ++ (metaText fg).data, [], true⟩ :=
  emitSchemaMeta_eq fg p h ha hm.1 hm.2.1 hm.2.2

theorem c6_schema_metadata_witness :
    (Printer.fresh.indent = [] ∧ Printer.fresh.atStart = true
      ∧ singleLineMeta sampleFG)
    ∧ emitSchemaMeta sampleFG Printer.fresh
        = ⟨Printer.fresh.out ++ (metaText sampleFG).data, [], true⟩ :=
  ⟨⟨rfl, rfl, ⟨rfl, rfl, by decide⟩⟩,
    c6_schema_metadata sampleFG Printer.fresh rfl rfl ⟨rfl, rfl, by decide⟩⟩

/-- A generator identical to sampleFG but with no services. -/
def noSvcFG : FileGenerator :=
  { file := { sampleFile with services := [] },
    lisp_package_name := "CL-PROTOBUFS.TUTORIAL",
    schema_name := "address.book", synTag := ":proto3" }

theorem append_rpc_ne (a : String) : a ++ "-RPC" ≠ a := by
  intro hcontra
  have h1 := congrArg String.length hcontra
  rw [String.length_append] at h1
  have h2 : "-RPC".length = 4 := rfl
  omega

/-- C7: the RPC namespace, target namespace plus "-RPC", enters the
packages set through the file-level logic only when the file has at least
one service (with no services, it is absent unless a message separately
contributes the same name), and when present the accumulated RPC exports
are emitted as a second export statement inside the RPC namespace, after
the type export statement of the primary namespace. -/
theorem c7_rpc_namespace (fg : FileGenerator) :
    (fg.file.services = [] →
      (∀ m ∈ fg.file.messages, fg.lisp_package_name ++ "-RPC" ∉ m.packages) →
      fg.lisp_package_name ++ "-RPC" ∉ computePackages fg)
    ∧ (fg.lisp_package_name ≠ "" → fg.file.services.length > 0 →
        fg.lisp_package_name ++ "-RPC" ∈ computePackages fg)
    ∧ (∀ (exports rpcExports : List String) (p : Printer), p.indent = [] →
        fg.lisp_package_name ≠ "" → exports ≠ [] → rpcExports ≠ [] →
        (emitExports fg exports rpcExports p).out
          = p.out ++ (exportStmtText exports
            ++ ("\n(cl:in-package \"" ++ fg.lisp_package_name ++ "-RPC\")\n")
            ++ exportStmtText rpcExports).data) := by
  refine ⟨?_, ?_, ?_⟩
  · intro hsv hmsg hmem
    rw [mem_computePackages, packageInsertions, hsv] at hmem
    by_cases hl : fg.lisp_package_name = ""
    · simp [hl, List.mem_flatten, List.mem_map] at hmem
      obtain ⟨m, hm, hxm⟩ := hmem
      exact hmsg m hm (by rw [hl]; exact hxm)
    · simp [hl, List.mem_flatten, List.mem_map] at hmem
      rcases hmem with hma | ⟨m, hm, hxm⟩
      · exact append_rpc_ne fg.lisp_package_name hma
      · exact hmsg m hm hxm
  · intro hl hsv
    rw [mem_computePackages, packageInsertions, if_pos hl, if_pos hsv]
    simp
  · intro exports rpcExports p h hl he hr
    rw [(emitExports_eq fg exports rpcExports p h).1, exportsPhaseText,
      if_pos hl, if_pos he, if_pos hr]
    simp [String.data_append, List.append_assoc]

theorem c7_rpc_namespace_witness :
    (noSvcFG.file.services = []
      ∧ (∀ m ∈ noSvcFG.file.messages,
          noSvcFG.lisp_package_name ++ "-RPC" ∉ m.packages)
      ∧ noSvcFG.lisp_package_name ++ "-RPC" ∉ computePackages noSvcFG)
    ∧ (sampleFG.lisp_package_name ≠ "" ∧ sampleFG.file.services.length > 0
      ∧ sampleFG.lisp_package_name ++ "-RPC" ∈ computePackages sampleFG)
    ∧ (Printer.fresh.indent = [] ∧ sampleFG.lisp_package_name ≠ ""
      ∧ (["PERSON"] : List String) ≠ [] ∧ (["CALL-GREET"] : List String) ≠ []
      ∧ (emitExports sampleFG ["PERSON"] ["CALL-GREET"] Printer.fresh).out
          = Printer.fresh.out ++ (exportStmtText ["PERSON"]
            ++ ("\n(cl:in-package \"" ++ sampleFG.lisp_package_name ++ "-RPC\")\n")
            ++ exportStmtText ["CALL-GREET"]).data) :=
  ⟨⟨rfl, by decide, (c7_rpc_namespace noSvcFG).1 rfl (by decide)⟩,
    ⟨by decide, by decide, (c7_rpc_namespace sampleFG).2.1 (by decide) (by decide)⟩,
    ⟨rfl, by decide, by decide, by decide,
      (c7_rpc_namespace sampleFG).2.2 ["PERSON"] ["CALL-GREET"] Printer.fresh rfl
        (by decide) (by decide) (by decide)⟩⟩

/-- C8: generation is deterministic — the output is a function of the
descriptor contents alone, so two descriptors that agree component by
component generate byte-identical output. -/
theorem c8_deterministic (f g : FileDescriptor)
    (h1 : f.name = g.name) (h2 : f.package = g.package)
    (h3 : f.synVer = g.synVer) (h4 : f.dependencies = g.dependencies)
    (h5 : f.enums = g.enums) (h6 : f.messages = g.messages)
    (h7 : f.extensions = g.extensions) (h8 : f.services = g.services)
    (h9 : f.lispPackage = g.lispPackage) :
    generateFile f = generateFile g := by
  cases f
  cases g
  simp_all

theorem c8_deterministic_witness :
    (sampleFile.name = sampleFile.name ∧ sampleFile.package = sampleFile.package
      ∧ sampleFile.synVer = sampleFile.synVer
      ∧ sampleFile.dependencies = sampleFile.dependencies
      ∧ sampleFile.enums = sampleFile.enums
      ∧ sampleFile.messages = sampleFile.messages
      ∧ sampleFile.extensions = sampleFile.extensions
      ∧ sampleFile.services = sampleFile.services
      ∧ sampleFile.lispPackage = sampleFile.lispPackage)
    ∧ generateFile sampleFile = generateFile sampleFile :=
  ⟨⟨rfl, rfl, rfl, rfl, rfl, rfl, rfl, rfl, rfl⟩,
    c8_deterministic sampleFile sampleFile rfl rfl rfl rfl rfl rfl rfl rfl rfl⟩

/-- C9: the type export list begins with the normalized schema name, so
it is never empty, and whenever the lisp package name is non-empty the
generated file contains a type export statement carrying at least the
schema name, even for a file with no entities at all. -/
theorem c9_exports_never_empty (fg : FileGenerator) (p : Printer)
    (h : p.indent = []) (hm : singleLineMeta fg) :
    ((emitEntities fg p).2.1.head? = some fg.schema_name
      ∧ (emitEntities fg p).2.1 ≠ [])
    ∧ (fg.lisp_package_name ≠ "" →
        (GenerateSource fg Printer.fresh).out
          = (headerText fg ++ pkgDeclsText fg ++ inPackageText fg ++ metaText fg
            ++ entitiesText fg ++ epilogueText fg
            ++ exportStmtText (fg.schema_name
              :: ((fg.file.enums.map EnumGen.exports).flatten
                ++ (fg.file.messages.map MessageGen.exports).flatten
                ++ (fg.file.services.map ServiceGen.exports).flatten))
            ++ (if rpcExportsOf fg ≠ [] then
                  "\n(cl:in-package \"" ++ fg.lisp_package_name ++ "-RPC\")\n"
                  ++ exportStmtText (rpcExportsOf fg)
                else "")).data) := by
  obtain ⟨_, _, e3, _⟩ := emitEntities_eq fg p h
  constructor
  · rw [e3, exportsOf]
    exact ⟨rfl, by simp⟩
  · intro hl
    rw [generateSource_out fg Printer.fresh rfl hm,
      show Printer.fresh.out = [] from rfl, fullText, exportsPhaseText,
      if_pos hl, if_pos (by rw [exportsOf]; simp)]
    rw [show exportStmtText (exportsOf fg)
        = exportStmtText (fg.schema_name
          :: ((fg.file.enums.map EnumGen.exports).flatten
            ++ (fg.file.messages.map MessageGen.exports).flatten
            ++ (fg.file.services.map ServiceGen.exports).flatten)) from rfl]
    simp [String.data_append, List.append_assoc]

theorem c9_exports_never_empty_witness :
    (Printer.fresh.indent = [] ∧ singleLineMeta emptyFG)
    ∧ (((emitEntities emptyFG Printer.fresh).2.1.head? = some emptyFG.schema_name
      ∧ (emitEntities emptyFG Printer.fresh).2.1 ≠ [])
    ∧ (emptyFG.lisp_package_name ≠ "" →
        (GenerateSource emptyFG Printer.fresh).out
          = (headerText emptyFG ++ pkgDeclsText emptyFG ++ inPackageText emptyFG
            ++ metaText emptyFG ++ entitiesText emptyFG ++ epilogueText emptyFG
            ++ exportStmtText (emptyFG.schema_name
              :: ((emptyFG.file.enums.map EnumGen.exports).flatten
                ++ (emptyFG.file.messages.map MessageGen.exports).flatten
                ++ (emptyFG.file.services.map ServiceGen.exports).flatten))
            ++ (if rpcExportsOf emptyFG ≠ [] then
                  "\n(cl:in-package \"" ++ emptyFG.lisp_package_name ++ "-RPC\")\n"
                  ++ exportStmtText (rpcExportsOf emptyFG)
                else "")).data)) :=
  ⟨⟨rfl, ⟨rfl, rfl, by decide⟩⟩,
    c9_exports_never_empty emptyFG Printer.fresh rfl ⟨rfl, rfl, by decide⟩⟩

/-- C10: when the derived lisp package name is empty, GenerateSource
declares no own or RPC namespace (the insertions are exactly the
message-contributed ones), emits no in-package switch and no export
statement at all — accumulated RPC exports are discarded — while the
schema-registration epilogue is still emitted. -/
theorem c10_empty_package (fg : FileGenerator)
    (hl : fg.lisp_package_name = "") (hm : singleLineMeta fg) :
    (GenerateSource fg Printer.fresh).out
        = (headerText fg ++ pkgDeclsText fg ++ metaText fg ++ entitiesText fg
          ++ epilogueText fg).data
      ∧ packageInsertions fg = (fg.file.messages.map MessageGen.packages).flatten
      ∧ inPackageText fg = ""
      ∧ exportsPhaseText fg (exportsOf fg) (rpcExportsOf fg) = "" := by
  have hin : inPackageText fg = "" := by rw [inPackageText, if_neg (by simp [hl])]
  have hex : exportsPhaseText fg (exportsOf fg) (rpcExportsOf fg) = "" := by
    rw [exportsPhaseText, if_neg (by simp [hl])]
  refine ⟨?_, ?_, hin, hex⟩
  · rw [generateSource_out fg Printer.fresh rfl hm,
      show Printer.fresh.out = [] from rfl, fullText, hin, hex]
    simp [String.data_append, List.append_assoc]
  · rw [packageInsertions, if_neg (by simp [hl]), List.nil_append]

theorem c10_empty_package_witness :
    (noPkgFG.lisp_package_name = "" ∧ singleLineMeta noPkgFG)
    ∧ ((GenerateSource noPkgFG Printer.fresh).out
        = (headerText noPkgFG ++ pkgDeclsText noPkgFG ++ metaText noPkgFG
          ++ entitiesText noPkgFG ++ epilogueText noPkgFG).data
      ∧ packageInsertions noPkgFG
          = (noPkgFG.file.messages.map MessageGen.packages).flatten
      ∧ inPackageText noPkgFG = ""
      ∧ exportsPhaseText noPkgFG (exportsOf noPkgFG) (rpcExportsOf noPkgFG) = "") :=
  ⟨⟨rfl, ⟨rfl, rfl, by decide⟩⟩,
    c10_empty_package noPkgFG rfl ⟨rfl, rfl, by decide⟩⟩

end ClProtobufs
